import Mathlib

/-!
Verification of the two numpy scripts `softmax.py` and `cross-entropy.py`.

Both Python functions are embedded shallowly over the real numbers:

* `softmax.py`:
    def softmax(L):
        expL = np.exp(L)
        print (np.divide(expL, expL.sum()))
  The function prints the normalized values and has no `return`
  statement, so the call itself evaluates to Python's `None`.

* `cross-entropy.py`:
    def cross_entropy(Y, P):
        Y = np.float_(Y)
        P = np.float_(P)
        print (-np.sum(Y * np.log(P) + (1 - Y) * np.log(1 - P)))
  Again the value is printed and the call evaluates to `None`.

Machine floats are modelled by `ℝ`.  A call that prints is modelled by a
`PyOutcome` record holding the printed value and the Python return value
(`none`, standing for Python's `None`).  The two partial elementwise
operations of numpy that can leave the happy path are modelled in an
`Except` monad: `np.log` on a non-positive argument (numpy leaves the
realm of finite real results there, producing `-inf`/`nan`), and the
broadcast of two 1-d arrays whose lengths differ while neither is 1
(numpy raises a `ValueError` there; when one operand has length 1 numpy
stretches it across the other operand).
-/

/-- The two ways the embedded numpy computations can leave the happy
path: a non-positive argument to `np.log`, or a failed broadcast of two
1-d arrays. -/
inductive NpError where
  | broadcastError
  | logDomain
deriving DecidableEq

/-- Outcome of calling a Python function that prints: `printed` is the
value passed to `print`, `ret` is the value the call returns (`none`
models Python's `None`). -/
structure PyOutcome (α : Type) where
  printed : α
  ret : Option α
deriving DecidableEq

/-- Elementwise `np.log` on a 1-d array, guarded: numpy's `log` only
yields a finite real on positive arguments, so a non-positive element
routes to the `logDomain` branch of the embedding. -/
noncomputable def npLogList : List ℝ → Except NpError (List ℝ)
  | [] => Except.ok []
  | x :: xs =>
    if 0 < x then
      match npLogList xs with
      | Except.error e => Except.error e
      | Except.ok ys => Except.ok (Real.log x :: ys)
    else Except.error NpError.logDomain

/-- Numpy broadcasting of a binary elementwise operation over two 1-d
arrays: equal lengths act pointwise; a length-1 operand is stretched
across the other; any other length combination raises. -/
def npBroadcast (f : ℝ → ℝ → ℝ) (a b : List ℝ) : Except NpError (List ℝ) :=
  if a.length = b.length then Except.ok (List.zipWith f a b)
  else if a.length = 1 then Except.ok (b.map fun y => f a.headI y)
  else if b.length = 1 then Except.ok (a.map fun x => f x b.headI)
  else Except.error NpError.broadcastError

/-- Embedding of `cross_entropy` from `cross-entropy.py`.  The numpy
expression `-np.sum(Y * np.log(P) + (1 - Y) * np.log(1 - P))` is
evaluated left to right: `np.log(P)`, the product `Y * np.log(P)`,
`np.log(1 - P)`, the product `(1 - Y) * np.log(1 - P)`, the sum of the
two arrays, `np.sum`, negation.  The result is printed; the function
body has no `return`, so the call returns `None`. -/
noncomputable def cross_entropy (Y P : List ℝ) : Except NpError (PyOutcome ℝ) :=
  match npLogList P with
  | Except.error e => Except.error e
  | Except.ok logP =>
    match npBroadcast (fun a b => a * b) Y logP with
    | Except.error e => Except.error e
    | Except.ok t1 =>
      match npLogList (P.map fun p => 1 - p) with
      | Except.error e => Except.error e
      | Except.ok log1mP =>
        match npBroadcast (fun a b => a * b) (Y.map fun y => 1 - y) log1mP with
        | Except.error e => Except.error e
        | Except.ok t2 =>
          match npBroadcast (fun a b => a + b) t1 t2 with
          | Except.error e => Except.error e
          | Except.ok s => Except.ok { printed := -s.sum, ret := none }

/-- Embedding of `softmax` from `softmax.py`: `expL = np.exp(L)` maps
`exp` over the list, `np.divide(expL, expL.sum())` divides every element
by the scalar sum (no element of the embedding can fail: `exp` is total
and real division is total in Lean).  The quotients are printed; the
function body has no `return`, so the call returns `None`. -/
noncomputable def softmax (L : List ℝ) : PyOutcome (List ℝ) :=
  let expL := L.map Real.exp
  { printed := expL.map fun x => x / expL.sum, ret := none }

/-- Spec-side formula for the cross-entropy value, written from the
specification text: result = −Σᵢ [ Yᵢ · ln(Pᵢ) + (1−Yᵢ) · ln(1−Pᵢ) ]. -/
noncomputable def ceFormula (Y P : List ℝ) : ℝ :=
  -(List.zipWith (fun y p => y * Real.log p + (1 - y) * Real.log (1 - p)) Y P).sum

/-- The printed value of an embedded `cross_entropy` call, when the call
reaches its `print` statement. -/
noncomputable def printedOf : Except NpError (PyOutcome ℝ) → Option ℝ
  | Except.ok r => some r.printed
  | Except.error _ => none

/-- The Python return value of an embedded `cross_entropy` call, when
the call finishes without raising. -/
noncomputable def retOf : Except NpError (PyOutcome ℝ) → Option (Option ℝ)
  | Except.ok r => some r.ret
  | Except.error _ => none

/-! ### Helper lemmas about the embedding -/

theorem npLogList_ok (P : List ℝ) (h : ∀ p ∈ P, 0 < p) :
    npLogList P = Except.ok (P.map Real.log) := by
  induction P with
  | nil => rfl
  | cons x xs ih =>
    have hx : 0 < x := h x (List.mem_cons_self x xs)
    have hxs : npLogList xs = Except.ok (xs.map Real.log) :=
      ih fun p hp => h p (List.mem_cons_of_mem x hp)
    simp [npLogList, hx, hxs]

theorem npBroadcast_eq_of_length (f : ℝ → ℝ → ℝ) (a b : List ℝ)
    (h : a.length = b.length) :
    npBroadcast f a b = Except.ok (List.zipWith f a b) := by
  simp [npBroadcast, h]

theorem ce_zip_terms (Y P : List ℝ) :
    List.zipWith (fun a b => a + b)
      (List.zipWith (fun a b => a * b) Y (P.map Real.log))
      (List.zipWith (fun a b => a * b) (Y.map fun y => 1 - y)
        ((P.map fun p => 1 - p).map Real.log)) =
    List.zipWith (fun y p => y * Real.log p + (1 - y) * Real.log (1 - p)) Y P := by
  induction Y generalizing P with
  | nil => simp
  | cons y ys ih =>
    cases P with
    | nil => simp
    | cons p ps =>
      simp only [List.map_cons, List.zipWith_cons_cons]
      rw [ih]

theorem cross_entropy_ok (Y P : List ℝ) (hlen : Y.length = P.length)
    (hP : ∀ p ∈ P, 0 < p ∧ p < 1) :
    cross_entropy Y P = Except.ok { printed := ceFormula Y P, ret := none } := by
  have h1 : npLogList P = Except.ok (P.map Real.log) :=
    npLogList_ok P fun p hp => (hP p hp).1
  have h2 : npLogList (P.map fun p => 1 - p) =
      Except.ok ((P.map fun p => 1 - p).map Real.log) := by
    refine npLogList_ok _ fun q hq => ?_
    rcases List.mem_map.1 hq with ⟨p, hp, rfl⟩
    have := (hP p hp).2
    linarith
  have l1 : Y.length = (P.map Real.log).length := by simpa using hlen
  have l2 : (Y.map fun y => 1 - y).length =
      ((P.map fun p => 1 - p).map Real.log).length := by simpa using hlen
  have l3 : (List.zipWith (fun a b => a * b) Y (P.map Real.log)).length =
      (List.zipWith (fun a b => a * b) (Y.map fun y => 1 - y)
        ((P.map fun p => 1 - p).map Real.log)).length := by
    simp [hlen]
  simp only [cross_entropy, h1, h2, npBroadcast_eq_of_length _ _ _ l1,
    npBroadcast_eq_of_length _ _ _ l2, npBroadcast_eq_of_length _ _ _ l3,
    ce_zip_terms, ceFormula]

theorem softmax_printed_eq (L : List ℝ) :
    (softmax L).printed = L.map fun x => Real.exp x / (L.map Real.exp).sum := by
  simp [softmax, List.map_map, Function.comp]

theorem sum_exp_pos (L : List ℝ) (h : L ≠ []) : 0 < (L.map Real.exp).sum := by
  cases L with
  | nil => exact absurd rfl h
  | cons x xs =>
    have hx : 0 < Real.exp x := Real.exp_pos x
    have hxs : 0 ≤ (xs.map Real.exp).sum :=
      List.sum_nonneg fun y hy => by
        rcases List.mem_map.1 hy with ⟨a, _, rfl⟩
        exact (Real.exp_pos a).le
    simp only [List.map_cons, List.sum_cons]
    linarith

theorem sum_map_div (l : List ℝ) (c : ℝ) :
    (l.map fun x => x / c).sum = l.sum / c := by
  induction l with
  | nil => simp
  | cons x xs ih => simp [ih, add_div]

theorem sum_map_exp_add (L : List ℝ) (c : ℝ) :
    (L.map fun x => Real.exp (x + c)).sum = (L.map Real.exp).sum * Real.exp c := by
  have hf : (fun x => Real.exp (x + c)) = fun x => Real.exp x * Real.exp c := by
    funext x
    exact Real.exp_add x c
  rw [hf]
  induction L with
  | nil => simp
  | cons a as ih => simp only [List.map_cons, List.sum_cons, ih, add_mul]

/-! ### Claim theorems -/

/-- C1: for a non-empty list L and a constant c, the softmax call on the
list with c added to every element behaves exactly as the softmax call
on L itself: the printed values coincide (exactly, over ℝ) and both
calls return None. -/
theorem softmax_shift_invariant (L : List ℝ) (c : ℝ) (_h : L ≠ []) :
    softmax (L.map fun x => x + c) = softmax L := by
  have hpt : (fun x => Real.exp (x + c) / ((L.map Real.exp).sum * Real.exp c))
      = fun x => Real.exp x / (L.map Real.exp).sum := by
    funext x
    rw [Real.exp_add]
    exact mul_div_mul_right _ _ (Real.exp_ne_zero c)
  simp only [softmax, List.map_map, Function.comp_def]
  rw [sum_map_exp_add, hpt]

/-- C1 witness: the invariance theorem applied to L = [0], c = 1. -/
theorem softmax_shift_invariant_witness :
    ([(0 : ℝ)] ≠ []) ∧ softmax ([(0 : ℝ)].map fun x => x + 1) = softmax [(0 : ℝ)] :=
  ⟨List.cons_ne_nil 0 [], softmax_shift_invariant [(0 : ℝ)] 1 (List.cons_ne_nil 0 [])⟩

/-- C3 counterexample: the claim says softmax on the empty sequence
fails with an InvalidArgument error; in the code every elementwise numpy
operation is vacuous on the empty array, so the call succeeds, printing
the empty sequence (and returning None). -/
theorem softmax_empty_produces_output :
    (softmax ([] : List ℝ)).printed = [] ∧ (softmax ([] : List ℝ)).ret = none :=
  ⟨rfl, rfl⟩

/-- C3 (amended): softmax on the empty sequence does not fail; it prints
the empty sequence and returns None. -/
theorem softmax_empty_eq : softmax ([] : List ℝ) = { printed := [], ret := none } :=
  rfl

/-- C6: for non-empty L, every printed softmax value lies in [0, 1] and
the printed values sum to 1 within 1e-9 (over ℝ the sum is exactly 1). -/
theorem softmax_printed_distribution (L : List ℝ) (h : L ≠ []) :
    (∀ x ∈ (softmax L).printed, 0 ≤ x ∧ x ≤ 1) ∧
    |(softmax L).printed.sum - 1| ≤ 1e-9 := by
  have hS : 0 < (L.map Real.exp).sum := sum_exp_pos L h
  constructor
  · intro x hx
    rw [softmax_printed_eq] at hx
    rcases List.mem_map.1 hx with ⟨a, ha, rfl⟩
    refine ⟨div_nonneg (Real.exp_pos a).le hS.le, (div_le_one hS).2 ?_⟩
    refine List.single_le_sum (fun y hy => ?_) _ (List.mem_map_of_mem Real.exp ha)
    rcases List.mem_map.1 hy with ⟨b, _, rfl⟩
    exact (Real.exp_pos b).le
  · have hsum : (softmax L).printed.sum = 1 := by
      simp only [softmax]
      rw [sum_map_div]
      exact div_self (ne_of_gt hS)
    rw [hsum]
    norm_num

/-- C6 witness: the distribution theorem applied to L = [0, 1]. -/
theorem softmax_printed_distribution_witness :
    ([(0 : ℝ), 1] ≠ []) ∧
    ((∀ x ∈ (softmax [(0 : ℝ), 1]).printed, 0 ≤ x ∧ x ≤ 1) ∧
      |(softmax [(0 : ℝ), 1]).printed.sum - 1| ≤ 1e-9) :=
  ⟨List.cons_ne_nil 0 [1], softmax_printed_distribution [(0 : ℝ), 1] (List.cons_ne_nil 0 [1])⟩

/-- C5 (on the code as written): for non-empty L the PRINTED sequence
has the length of L and its i-th entry is e^(Lᵢ) / Σⱼ e^(Lⱼ); the call
itself returns None (the function prints instead of returning, contrary
to its own header comment). -/
theorem softmax_prints_formula_returns_none (L : List ℝ) (_h : L ≠ []) :
    ((softmax L).printed).length = L.length ∧
    (∀ i, i < L.length → ((softmax L).printed).getD i 0 =
      Real.exp (L.getD i 0) / (L.map Real.exp).sum) ∧
    (softmax L).ret = none := by
  refine ⟨?_, ?_, rfl⟩
  · rw [softmax_printed_eq]
    exact List.length_map _ _
  · intro i hi
    rw [softmax_printed_eq]
    have hi2 : i < (L.map fun x => Real.exp x / (L.map Real.exp).sum).length := by
      simpa using hi
    rw [List.getD_eq_getElem _ _ hi2, List.getD_eq_getElem _ _ hi, List.getElem_map]

/-- C5 witness: the formula theorem applied to L = [0, 1]. -/
theorem softmax_prints_formula_returns_none_witness :
    ([(0 : ℝ), 1] ≠ []) ∧
    (((softmax [(0 : ℝ), 1]).printed).length = [(0 : ℝ), 1].length ∧
      (∀ i, i < [(0 : ℝ), 1].length → ((softmax [(0 : ℝ), 1]).printed).getD i 0 =
        Real.exp ([(0 : ℝ), 1].getD i 0) / ([(0 : ℝ), 1].map Real.exp).sum) ∧
      (softmax [(0 : ℝ), 1]).ret = none) :=
  ⟨List.cons_ne_nil 0 [1],
    softmax_prints_formula_returns_none [(0 : ℝ), 1] (List.cons_ne_nil 0 [1])⟩

/-- C9 (on the code as written): on a list of n equal values the PRINTED
sequence is the uniform distribution, every entry 1/n (for n = 1 this is
[1.0]); the call itself returns None rather than the sequence. -/
theorem softmax_replicate_uniform (n : ℕ) (c : ℝ) (_h : 1 ≤ n) :
    (softmax (List.replicate n c)).printed = List.replicate n (1 / (n : ℝ)) ∧
    (softmax (List.replicate n c)).ret = none := by
  refine ⟨?_, rfl⟩
  simp only [softmax, List.map_replicate, List.sum_replicate, nsmul_eq_mul]
  congr 1
  rw [mul_comm, div_mul_eq_div_div, div_self (Real.exp_ne_zero c)]

/-- C9 witness: the uniformity theorem applied to n = 1, c = 7 (the
single-element case of the claim, printed value [1.0]) packaged with the
hypothesis 1 ≤ 1. -/
theorem softmax_replicate_uniform_witness :
    1 ≤ 1 ∧ ((softmax (List.replicate 1 (7 : ℝ))).printed = List.replicate 1 (1 / ((1 : ℕ) : ℝ)) ∧
      (softmax (List.replicate 1 (7 : ℝ))).ret = none) :=
  ⟨le_refl 1, softmax_replicate_uniform 1 7 (le_refl 1)⟩

theorem list_sum_nonpos (l : List ℝ) (h : ∀ x ∈ l, x ≤ 0) : l.sum ≤ 0 := by
  induction l with
  | nil => simp
  | cons x xs ih =>
    simp only [List.sum_cons]
    have hx := h x (List.mem_cons_self x xs)
    have hxs := ih fun y hy => h y (List.mem_cons_of_mem x hy)
    linarith

theorem ce_terms_sum_nonpos : ∀ (Y P : List ℝ), (∀ y ∈ Y, 0 ≤ y ∧ y ≤ 1) →
    (∀ p ∈ P, 0 < p ∧ p < 1) →
    (List.zipWith (fun y p => y * Real.log p + (1 - y) * Real.log (1 - p)) Y P).sum ≤ 0
  | [], _, _, _ => by simp
  | _ :: _, [], _, _ => by simp
  | y :: ys, p :: ps, hY, hP => by
    have hy := hY y (List.mem_cons_self y ys)
    have hp := hP p (List.mem_cons_self p ps)
    have h1 : Real.log p < 0 := Real.log_neg hp.1 hp.2
    have h2 : Real.log (1 - p) < 0 := Real.log_neg (by linarith [hp.2]) (by linarith [hp.1])
    have tail := ce_terms_sum_nonpos ys ps
      (fun a ha => hY a (List.mem_cons_of_mem y ha))
      (fun a ha => hP a (List.mem_cons_of_mem p ha))
    have t1 : y * Real.log p ≤ 0 := mul_nonpos_iff.2 (Or.inl ⟨hy.1, h1.le⟩)
    have t2 : (1 - y) * Real.log (1 - p) ≤ 0 :=
      mul_nonpos_iff.2 (Or.inl ⟨by linarith [hy.2], h2.le⟩)
    simp only [List.zipWith_cons_cons, List.sum_cons]
    linarith

/-- C4 (on the code as written): for equal-length Y and P with N ≥ 1 and
every Pᵢ strictly inside (0,1), the call PRINTS the float
−Σᵢ [ Yᵢ · ln(Pᵢ) + (1−Yᵢ) · ln(1−Pᵢ) ] and returns None; it does not
return the float, contrary to the claim and to the header comment of
`cross-entropy.py` itself. -/
theorem cross_entropy_prints_formula_returns_none (Y P : List ℝ)
    ( _hN : 1 ≤ Y.length) (hlen : Y.length = P.length)
    (hP : ∀ p ∈ P, 0 < p ∧ p < 1) :
    cross_entropy Y P = Except.ok { printed := ceFormula Y P, ret := none } :=
  cross_entropy_ok Y P hlen hP

/-- C4 witness: the theorem applied to the literal call of the script,
Y = [1, 1, 0] and P = [0.8, 0.7, 0.1]. -/
theorem cross_entropy_prints_formula_returns_none_witness :
    (1 ≤ [(1 : ℝ), 1, 0].length ∧ [(1 : ℝ), 1, 0].length = [(0.8 : ℝ), 0.7, 0.1].length ∧
      (∀ p ∈ [(0.8 : ℝ), 0.7, 0.1], 0 < p ∧ p < 1)) ∧
    cross_entropy [(1 : ℝ), 1, 0] [(0.8 : ℝ), 0.7, 0.1] =
      Except.ok { printed := ceFormula [(1 : ℝ), 1, 0] [(0.8 : ℝ), 0.7, 0.1], ret := none } :=
  ⟨⟨by norm_num, by norm_num, by norm_num⟩,
    cross_entropy_prints_formula_returns_none _ _ (by norm_num) (by norm_num) (by norm_num)⟩

/-- C7: for equal-length Y and P with every Yᵢ in [0,1] and every Pᵢ
strictly inside (0,1), the call succeeds and the printed cross-entropy
value is non-negative. -/
theorem cross_entropy_printed_nonneg (Y P : List ℝ) (hlen : Y.length = P.length)
    (hY : ∀ y ∈ Y, 0 ≤ y ∧ y ≤ 1) (hP : ∀ p ∈ P, 0 < p ∧ p < 1) :
    ∃ r, cross_entropy Y P = Except.ok r ∧ 0 ≤ r.printed := by
  refine ⟨{ printed := ceFormula Y P, ret := none }, cross_entropy_ok Y P hlen hP, ?_⟩
  have hterms := ce_terms_sum_nonpos Y P hY hP
  simp only [ceFormula]
  linarith

/-- C7 witness: the non-negativity theorem applied to Y = [1, 0] and
P = [1/2, 1/2]. -/
theorem cross_entropy_printed_nonneg_witness :
    ([(1 : ℝ), 0].length = [(1 : ℝ)/2, 1/2].length ∧
      (∀ y ∈ [(1 : ℝ), 0], 0 ≤ y ∧ y ≤ 1) ∧
      (∀ p ∈ [(1 : ℝ)/2, 1/2], 0 < p ∧ p < 1)) ∧
    (∃ r, cross_entropy [(1 : ℝ), 0] [(1 : ℝ)/2, 1/2] = Except.ok r ∧ 0 ≤ r.printed) :=
  ⟨⟨by norm_num, by norm_num, by norm_num⟩,
    cross_entropy_printed_nonneg _ _ (by norm_num) (by norm_num) (by norm_num)⟩

/-- C10: for equal-length Y and P with every Pᵢ strictly inside (0,1),
both elementwise logarithms succeed — `np.log(P)` and `np.log(1 - P)`
receive strictly positive arguments at every index — so the
undefined-logarithm branch of the embedding is unreachable: the call
cannot end in the logDomain error. -/
theorem cross_entropy_no_log_domain_error (Y P : List ℝ) (hlen : Y.length = P.length)
    (hP : ∀ p ∈ P, 0 < p ∧ p < 1) :
    npLogList P = Except.ok (P.map Real.log) ∧
    npLogList (P.map fun p => 1 - p) =
      Except.ok ((P.map fun p => 1 - p).map Real.log) ∧
    cross_entropy Y P ≠ Except.error NpError.logDomain := by
  refine ⟨npLogList_ok P fun p hp => (hP p hp).1, ?_, ?_⟩
  · refine npLogList_ok _ fun q hq => ?_
    rcases List.mem_map.1 hq with ⟨p, hp, rfl⟩
    have := (hP p hp).2
    linarith
  · rw [cross_entropy_ok Y P hlen hP]
    intro hcon
    exact Except.noConfusion hcon

/-- C10 witness: the theorem applied to Y = [0] and P = [1/2]. -/
theorem cross_entropy_no_log_domain_error_witness :
    ([(0 : ℝ)].length = [(1 : ℝ)/2].length ∧ (∀ p ∈ [(1 : ℝ)/2], 0 < p ∧ p < 1)) ∧
    (npLogList [(1 : ℝ)/2] = Except.ok ([(1 : ℝ)/2].map Real.log) ∧
      npLogList ([(1 : ℝ)/2].map fun p => 1 - p) =
        Except.ok (([(1 : ℝ)/2].map fun p => 1 - p).map Real.log) ∧
      cross_entropy [(0 : ℝ)] [(1 : ℝ)/2] ≠ Except.error NpError.logDomain) :=
  ⟨⟨by norm_num, by norm_num⟩,
    cross_entropy_no_log_domain_error _ _ (by norm_num) (by norm_num)⟩

/-- C2 counterexample: Y = [1] and P = [1/2, 1/2] have different
lengths, yet the code does not fail: numpy stretches the length-1
operand across the other (broadcasting) and the call prints a numeric
result, so the printed value exists. -/
theorem cross_entropy_mismatch_broadcasts :
    ([(1 : ℝ)].length ≠ [(1 : ℝ)/2, 1/2].length) ∧
    (printedOf (cross_entropy [(1 : ℝ)] [(1 : ℝ)/2, 1/2])).isSome = true := by
  refine ⟨by norm_num, ?_⟩
  norm_num [cross_entropy, npLogList, npBroadcast, printedOf]

/-- C2 (amended): a length mismatch makes the call fail only when
neither operand has length 1; the failure is numpy's broadcast error at
the product `Y * np.log(P)` (a ValueError, not a dedicated
InvalidArgument length check), stated here for P whose entries are valid
probabilities so that the logarithms themselves succeed. -/
theorem cross_entropy_mismatch_error (Y P : List ℝ)
    (hne : Y.length ≠ P.length) (hY1 : Y.length ≠ 1) (hP1 : P.length ≠ 1)
    (hP : ∀ p ∈ P, 0 < p ∧ p < 1) :
    cross_entropy Y P = Except.error NpError.broadcastError := by
  have h1 : npLogList P = Except.ok (P.map Real.log) :=
    npLogList_ok P fun p hp => (hP p hp).1
  have hlen2 : Y.length ≠ (P.map Real.log).length := by simpa using hne
  have hlenP : (P.map Real.log).length ≠ 1 := by simpa using hP1
  have hb : npBroadcast (fun a b => a * b) Y (P.map Real.log) =
      Except.error NpError.broadcastError := by
    simp [npBroadcast, hne, hY1, hP1]
  simp only [cross_entropy, h1, hb]

/-- C2 witness: the amended theorem applied to Y = [0, 0] and
P = [1/2, 1/2, 1/2]. -/
theorem cross_entropy_mismatch_error_witness :
    ([(0 : ℝ), 0].length ≠ [(1 : ℝ)/2, 1/2, 1/2].length ∧ [(0 : ℝ), 0].length ≠ 1 ∧
      [(1 : ℝ)/2, 1/2, 1/2].length ≠ 1 ∧ (∀ p ∈ [(1 : ℝ)/2, 1/2, 1/2], 0 < p ∧ p < 1)) ∧
    cross_entropy [(0 : ℝ), 0] [(1 : ℝ)/2, 1/2, 1/2] = Except.error NpError.broadcastError :=
  ⟨⟨by norm_num, by norm_num, by norm_num, by norm_num⟩,
    cross_entropy_mismatch_error _ _ (by norm_num) (by norm_num) (by norm_num) (by norm_num)⟩

theorem exp_ub_06841 : Real.exp 0.6841 ≤ 125 / 63 := by
  have h := @Real.exp_bound' 0.6841 (by norm_num) (by norm_num) 6 (by norm_num)
  refine le_trans h ?_
  norm_num [Finset.sum_range_succ, Nat.factorial]

theorem exp_lb_06861 : (125 / 63 : ℝ) ≤ Real.exp 0.6861 := by
  have h := Real.sum_le_exp_of_nonneg (by norm_num : (0:ℝ) ≤ 0.6861) 6
  refine le_trans ?_ h
  norm_num [Finset.sum_range_succ, Nat.factorial]

/-- C8: at the literal inputs of the script, Y = [1, 1, 0] and
P = [0.8, 0.7, 0.1], the cross-entropy call prints a value within 1e-3
of 0.6851. -/
theorem cross_entropy_example_value :
    ∃ v, printedOf (cross_entropy [(1 : ℝ), 1, 0] [(0.8 : ℝ), 0.7, 0.1]) = some v ∧
      |v - 0.6851| ≤ 1e-3 := by
  have hok := cross_entropy_ok [(1 : ℝ), 1, 0] [(0.8 : ℝ), 0.7, 0.1]
    (by norm_num) (by norm_num)
  refine ⟨ceFormula [(1 : ℝ), 1, 0] [(0.8 : ℝ), 0.7, 0.1], by rw [hok]; rfl, ?_⟩
  have m1 : Real.log 0.8 + Real.log 0.7 = Real.log 0.56 := by
    rw [← Real.log_mul (by norm_num) (by norm_num)]
    norm_num
  have m2 : Real.log 0.56 + Real.log 0.9 = Real.log 0.504 := by
    rw [← Real.log_mul (by norm_num) (by norm_num)]
    norm_num
  have hval : ceFormula [(1 : ℝ), 1, 0] [(0.8 : ℝ), 0.7, 0.1] = -Real.log 0.504 := by
    simp only [ceFormula, List.zipWith_cons_cons, List.zipWith_nil_left, List.sum_cons,
      List.sum_nil]
    norm_num
    linarith [m1, m2]
  rw [hval]
  have h1 : Real.log 0.504 ≤ -0.6841 := by
    rw [Real.log_le_iff_le_exp (by norm_num), Real.exp_neg, inv_eq_one_div,
      le_div_iff₀ (Real.exp_pos _)]
    linarith [exp_ub_06841]
  have h2 : (-0.6861 : ℝ) ≤ Real.log 0.504 := by
    rw [Real.le_log_iff_exp_le (by norm_num), Real.exp_neg, inv_eq_one_div,
      div_le_iff₀ (Real.exp_pos _)]
    linarith [exp_lb_06861]
  rw [abs_le]
  constructor <;> linarith
